import Mathlib

/-!
Shallow embedding of `compress.py`, a batch PNG → WebP converter that invokes
the external `magick` tool once per input file, reconciles timestamps and
optionally deletes originals.

Modelling choices:
* A filesystem path is a list of components (`Path`); `pathStr` renders it the
  way Python's `str(Path(...))` does, joining with `/`.
* The filesystem is a finite map from paths to file metadata (timestamps),
  together with the set of existing directories.  `os.listdir` is derived from
  it: the direct children of a directory, files, subdirectories and names
  implied by deeper paths alike.
* The external `magick` tool is an oracle (`ToolBehavior`) per input file:
  its exit code, its stderr text and whether it actually writes the output
  file.  `subprocess.run` is the corresponding state change.
* The worker pool runs every submitted task to completion (the `with`
  block joins the pool even on early return), so the conversion phase is
  linearised as `runAll`; the driver loop that inspects the futures in
  submission order is `reportLoop`.
* Removals performed by `os.remove` are recorded in a trace (`removed`) in
  addition to being applied to the filesystem, so frame claims can speak
  about what the run deleted.
-/

namespace PngToWebp

/-- A filesystem path, as a list of components. -/
abbrev Path := List String

/-- Python `str(Path(...))`: components joined with `/`. -/
def pathStr (p : Path) : String := String.intercalate "/" p

/-- Python `str.endswith`, via character-list suffix. -/
def strEndsWith (s suffix : String) : Bool := suffix.data.isSuffixOf s.data

/-- The stat metadata the script reads and writes: access and modification
times, as in `os.stat_result.st_atime` / `st_mtime`. -/
structure FileMeta where
  atime : Int
  mtime : Int
  deriving Repr, DecidableEq

/-- The filesystem: existing regular files with their metadata, and existing
directories. -/
structure FS where
  files : List (Path × FileMeta)
  dirs : List Path
  deriving Repr, DecidableEq

/-- First entry of an association list at the given path. -/
def lookupEntries : List (Path × FileMeta) → Path → Option FileMeta
  | [], _ => none
  | e :: t, p => if e.1 = p then some e.2 else lookupEntries t p

/-- Replace the metadata of every entry at the given path. -/
def updateEntries : List (Path × FileMeta) → Path → FileMeta → List (Path × FileMeta)
  | [], _, _ => []
  | e :: t, p, m => (if e.1 = p then (p, m) else e) :: updateEntries t p m

/-- Drop every entry at the given path. -/
def removeEntries : List (Path × FileMeta) → Path → List (Path × FileMeta)
  | [], _ => []
  | e :: t, p => if e.1 = p then removeEntries t p else e :: removeEntries t p

/-- Lookup the metadata of a regular file, as `Path.stat` would. -/
def FS.lookupFile (fs : FS) (p : Path) : Option FileMeta :=
  lookupEntries fs.files p

/-- `Path.exists` restricted to regular files. -/
def FS.existsFile (fs : FS) (p : Path) : Bool :=
  (fs.lookupFile p).isSome

/-- `Path.is_dir`. -/
def FS.isDir (fs : FS) (p : Path) : Bool :=
  fs.dirs.contains p

/-- Replace the metadata of every entry at path `p`. -/
def FS.updateFile (fs : FS) (p : Path) (m : FileMeta) : FS :=
  { fs with files := updateEntries fs.files p m }

/-- The external tool writing (or overwriting) the file at `p`. -/
def FS.writeFile (fs : FS) (p : Path) (m : FileMeta) : FS :=
  if fs.existsFile p then fs.updateFile p m
  else { fs with files := (p, m) :: fs.files }

/-- `os.utime(p, (atime, mtime))`, on a file known to exist. -/
def FS.setTimes (fs : FS) (p : Path) (a t : Int) : FS :=
  fs.updateFile p ⟨a, t⟩

/-- `os.remove p`. -/
def FS.removeFile (fs : FS) (p : Path) : FS :=
  { fs with files := removeEntries fs.files p }

/-- The names `os.listdir dir` returns: every direct child of `dir` witnessed
by an existing file, an existing directory, or a deeper path. -/
def FS.entries (fs : FS) (dir : Path) : List String :=
  ((fs.files.map Prod.fst ++ fs.dirs).filterMap (fun p =>
    if dir.length < p.length ∧ p.take dir.length = dir then p.get? dir.length
    else none)).dedup

/-- `_COMPRESSED_FILE_TYPE` in `compress.py`. -/
def _COMPRESSED_FILE_TYPE : String := "webp"

/-- `pathlib.PurePath.stem` on a file name: the name without its suffix, where
the suffix starts at the last dot provided that dot is neither the leading
character nor the final character. -/
def stem (s : String) : String :=
  let l := s.data
  match ((List.range l.length).filter (fun i => decide (l.get? i = some '.'))).getLast? with
  | none => s
  | some i => if 0 < i ∧ i < l.length - 1 then ⟨l.take i⟩ else s

/-- Behavior of one invocation of the external `magick` command on a given
input file: its exit code, its stderr text, whether it writes the output
file, and the metadata the written output carries before `os.utime`. -/
structure ToolBehavior where
  returncode : Int
  stderr : String
  writesOutput : Bool
  outputMeta : FileMeta
  deriving Repr

/-- An environment assigns each input file the behavior the external tool
exhibits on it. -/
abbrev ToolEnv := Path → ToolBehavior

/-- Outcome of one `run_magick` call as seen through its future: the returned
string, or the message of the exception it raised. -/
inductive RunResult where
  | ok (processed : String)
  | error (msg : String)
  deriving Repr, DecidableEq

def RunResult.isOk : RunResult → Bool
  | .ok _ => true
  | .error _ => false

/-- The output path computed at the top of `run_magick` (line 26):
`output_dir / (file.stem + "." + _COMPRESSED_FILE_TYPE)`. -/
def run_magick_output_path (output_dir : Path) (file : Path) : Path :=
  output_dir ++ [stem (file.getLastD "") ++ "." ++ _COMPRESSED_FILE_TYPE]

/-- The filesystem after the `subprocess.run` call: the tool has written the
output file exactly when its behavior says it does. -/
def run_magick_fs1 (env : ToolEnv) (fs : FS) (file output_dir : Path) : FS :=
  if (env file).writesOutput then
    fs.writeFile (run_magick_output_path output_dir file) (env file).outputMeta
  else fs

/-- `run_magick(file, output_dir)`: runs `magick -quality 75 file out`,
raises on a non-zero exit code carrying the tool's stderr, otherwise copies
the input's access/modification times onto the output and returns
`str(file)`.  A `stat`/`utime` on a missing file raises `FileNotFoundError`,
which the driver catches like any other exception. -/
def run_magick (env : ToolEnv) (fs : FS) (file : Path) (output_dir : Path) :
    RunResult × FS :=
  let output_webp_file := run_magick_output_path output_dir file
  let b := env file
  let fs1 := run_magick_fs1 env fs file output_dir
  if b.returncode ≠ 0 then
    (.error ("'magick' failed on file " ++ pathStr file ++ " with error:\\n" ++ b.stderr), fs1)
  else
    match fs1.lookupFile file with
    | none =>
        (.error ("[Errno 2] No such file or directory: " ++ pathStr file), fs1)
    | some file_stat =>
        if fs1.existsFile output_webp_file then
          (.ok (pathStr file), fs1.setTimes output_webp_file file_stat.atime file_stat.mtime)
        else
          (.error ("[Errno 2] No such file or directory: " ++ pathStr output_webp_file), fs1)

/-- The expected-output path computed in the post-pass of `process_images`
(line 76): `output_dir / (single_file.stem + "." + _COMPRESSED_FILE_TYPE)`. -/
def post_pass_expected_path (output_dir : Path) (single_file : Path) : Path :=
  output_dir ++ [stem (single_file.getLastD "") ++ "." ++ _COMPRESSED_FILE_TYPE]

/-- The comprehension on line 55:
`[imgs_dir / f for f in os.listdir(imgs_dir) if f.endswith(".png")]`,
split into the selected names and the resulting paths. -/
def pngNames (fs : FS) (imgs_dir : Path) : List String :=
  (fs.entries imgs_dir).filter (fun f => strEndsWith f ".png")

def pngFiles (fs : FS) (imgs_dir : Path) : List Path :=
  (pngNames fs imgs_dir).map (fun f => imgs_dir ++ [f])

/-- All submitted `run_magick` tasks run to completion (the `with` block
joins the pool before `process_images` returns), linearised in submission
order; yields the per-task results and the filesystem they leave behind. -/
def runAll (env : ToolEnv) (fs : FS) (files : List Path) (output_dir : Path) :
    List RunResult × FS :=
  match files with
  | [] => ([], fs)
  | f :: rest =>
      let r := run_magick env fs f output_dir
      let rec' := runAll env r.2 rest output_dir
      (r.1 :: rec'.1, rec'.2)

/-- The driver loop over the futures (lines 66–73): print per-future, and on
the first future whose `result()` raises, print the error and return `False`
without inspecting the remaining futures.  Yields the printed lines and the
boolean outcome of the loop (`true` = fell through). -/
def reportLoop : List (Path × RunResult) → List String × Bool
  | [] => ([], true)
  | (_, .ok s) :: rest =>
      (("Processed file: " ++ s) :: (reportLoop rest).1, (reportLoop rest).2)
  | (f, .error e) :: _ =>
      (["Error processing file " ++ pathStr f ++ ": " ++ e], false)

/-- Result of the post-pass: final filesystem, printed warnings, and the
trace of `os.remove` calls. -/
structure PostResult where
  fs : FS
  log : List String
  removed : List Path
  deriving Repr, DecidableEq

/-- The post-pass (lines 75–85): for each input, if the expected output
exists, delete the input when `remove_input_on_success` is set; otherwise
print a warning and keep the input. -/
def postPass (fs : FS) (png_files : List Path) (output_dir : Path)
    (remove_input_on_success : Bool) : PostResult :=
  match png_files with
  | [] => ⟨fs, [], []⟩
  | single_file :: rest =>
      let expected_file := post_pass_expected_path output_dir single_file
      if fs.existsFile expected_file then
        if remove_input_on_success then
          let r := postPass (fs.removeFile single_file) rest output_dir
            remove_input_on_success
          ⟨r.fs, r.log, single_file :: r.removed⟩
        else
          postPass fs rest output_dir remove_input_on_success
      else
        let r := postPass fs rest output_dir remove_input_on_success
        ⟨r.fs,
          ("Error: Expected file '" ++ pathStr expected_file ++
            "' not found. Keeping original file.") :: r.log,
          r.removed⟩

/-- Outcome of `process_images`: its boolean return value, the filesystem it
leaves behind, everything it printed, and the inputs it removed. -/
structure ProcResult where
  ok : Bool
  fs : FS
  log : List String
  removed : List Path
  deriving Repr, DecidableEq

/-- The per-task results of a run of `process_images`, in submission order. -/
def conversionResults (env : ToolEnv) (fs : FS) (imgs_dir output_dir : Path) :
    List RunResult :=
  (runAll env fs (pngFiles fs imgs_dir) output_dir).1

/-- `process_images(imgs_dir, output_dir, remove_input_on_success)`:
list the `.png` entries, convert them all in the pool, report results in
submission order returning `False` at the first failure, and on full success
run the post-pass and return `True`. -/
def process_images (env : ToolEnv) (fs : FS) (imgs_dir output_dir : Path)
    (remove_input_on_success : Bool) : ProcResult :=
  let png_files := pngFiles fs imgs_dir
  let conv := runAll env fs png_files output_dir
  let rep := reportLoop (png_files.zip conv.1)
  if rep.2 then
    let post := postPass conv.2 png_files output_dir remove_input_on_success
    ⟨true, post.fs, rep.1 ++ post.log, post.removed⟩
  else
    ⟨false, conv.2, rep.1, []⟩

/-- Outcome of `main`: the process exit status, the filesystem, what was
printed, and the inputs removed. -/
structure MainResult where
  exitCode : Nat
  fs : FS
  log : List String
  removed : List Path
  deriving Repr, DecidableEq

/-- `main()` after argument parsing (lines 112–125): validate that both
`--input` and `--output` are directories (printing an error and returning
from `main` — hence exiting with status 0 — if not), then run
`process_images`; `sys.exit(1)` when it returns `False`, normal exit
(status 0) otherwise. -/
def main (env : ToolEnv) (fs : FS) (input output : Path) (remove_input : Bool) :
    MainResult :=
  if ¬ fs.isDir input then
    ⟨0, fs, ["Error: '" ++ pathStr input ++ "' is not a directory."], []⟩
  else if ¬ fs.isDir output then
    ⟨0, fs, ["Error: '" ++ pathStr output ++ "' is not a directory."], []⟩
  else
    let r := process_images env fs input output remove_input
    if ¬ r.ok then
      ⟨1, r.fs, r.log ++ ["Operation failed. See above for errors."], r.removed⟩
    else
      ⟨0, r.fs, r.log ++ ["Operation completed successfully."], r.removed⟩

/-! ### Association-list and filesystem lemmas -/

theorem lookupEntries_updateEntries_isSome (l : List (Path × FileMeta)) (p q : Path)
    (m : FileMeta) :
    (lookupEntries (updateEntries l p m) q).isSome = (lookupEntries l q).isSome := by
  induction l with
  | nil => rfl
  | cons e t ih =>
      by_cases hp : e.1 = p <;> by_cases hq : e.1 = q <;>
        simp [updateEntries, lookupEntries, hp, hq, ih] <;> simp_all

theorem lookupEntries_updateEntries_self (l : List (Path × FileMeta)) (p : Path)
    (m : FileMeta) (h : (lookupEntries l p).isSome = true) :
    lookupEntries (updateEntries l p m) p = some m := by
  induction l with
  | nil => simp [lookupEntries] at h
  | cons e t ih =>
      by_cases hp : e.1 = p
      · simp [updateEntries, lookupEntries, hp]
      · simp only [updateEntries, lookupEntries, hp, if_false, if_neg hp] at h ⊢
        exact ih h

theorem lookupEntries_updateEntries_ne (l : List (Path × FileMeta)) (p q : Path)
    (m : FileMeta) (h : q ≠ p) :
    lookupEntries (updateEntries l p m) q = lookupEntries l q := by
  induction l with
  | nil => rfl
  | cons e t ih =>
      by_cases hp : e.1 = p
      · have : p ≠ q := fun hpq => h hpq.symm
        simp [updateEntries, lookupEntries, hp, this, ih]
      · simp [updateEntries, lookupEntries, hp, ih]

theorem lookupEntries_removeEntries (l : List (Path × FileMeta)) (p q : Path) :
    lookupEntries (removeEntries l p) q =
      if q = p then none else lookupEntries l q := by
  induction l with
  | nil => simp [removeEntries, lookupEntries]
  | cons e t ih =>
      simp only [removeEntries]
      by_cases hp : e.1 = p
      · rw [if_pos hp, ih]
        by_cases hq : q = p
        · simp [hq]
        · have hne : e.1 ≠ q := by
            rw [hp]; exact fun hc => hq hc.symm
          simp [hq, lookupEntries, hne]
      · rw [if_neg hp]
        by_cases heq : e.1 = q
        · have hqp : ¬ q = p := fun hc => hp (heq.trans hc)
          simp [lookupEntries, heq, hqp]
        · simp [lookupEntries, heq, ih]

theorem FS.existsFile_updateFile (fs : FS) (p q : Path) (m : FileMeta) :
    (fs.updateFile p m).existsFile q = fs.existsFile q := by
  simp [FS.existsFile, FS.lookupFile, FS.updateFile,
    lookupEntries_updateEntries_isSome]

theorem FS.existsFile_setTimes (fs : FS) (p q : Path) (a t : Int) :
    (fs.setTimes p a t).existsFile q = fs.existsFile q :=
  fs.existsFile_updateFile p q ⟨a, t⟩

theorem FS.lookupFile_setTimes_self (fs : FS) (p : Path) (a t : Int)
    (h : fs.existsFile p = true) :
    (fs.setTimes p a t).lookupFile p = some ⟨a, t⟩ := by
  simp only [FS.setTimes, FS.updateFile, FS.lookupFile]
  exact lookupEntries_updateEntries_self fs.files p ⟨a, t⟩ h

theorem FS.lookupFile_updateFile_ne (fs : FS) (p q : Path) (m : FileMeta)
    (h : q ≠ p) : (fs.updateFile p m).lookupFile q = fs.lookupFile q :=
  lookupEntries_updateEntries_ne fs.files p q m h

theorem FS.existsFile_writeFile (fs : FS) (p q : Path) (m : FileMeta) :
    (fs.writeFile p m).existsFile q = (decide (q = p) || fs.existsFile q) := by
  rw [FS.writeFile]
  by_cases hp : fs.existsFile p
  · rw [if_pos hp, fs.existsFile_updateFile p q m]
    by_cases hq : q = p
    · subst hq; simp [hp]
    · simp [hq]
  · rw [if_neg hp]
    show (lookupEntries ((p, m) :: fs.files) q).isSome = _
    by_cases hq : q = p
    · subst hq; simp [lookupEntries]
    · have hne : p ≠ q := fun hc => hq hc.symm
      simp [lookupEntries, hne, hq, FS.existsFile, FS.lookupFile]

theorem FS.existsFile_writeFile_self (fs : FS) (p : Path) (m : FileMeta) :
    (fs.writeFile p m).existsFile p = true := by
  simp [fs.existsFile_writeFile p p m]

theorem FS.existsFile_writeFile_mono (fs : FS) (p q : Path) (m : FileMeta)
    (h : fs.existsFile q = true) : (fs.writeFile p m).existsFile q = true := by
  simp [fs.existsFile_writeFile p q m, h]

theorem FS.existsFile_writeFile_ne (fs : FS) (p q : Path) (m : FileMeta)
    (h : q ≠ p) : (fs.writeFile p m).existsFile q = fs.existsFile q := by
  simp [fs.existsFile_writeFile p q m, h]

theorem FS.lookupFile_writeFile_ne (fs : FS) (p q : Path) (m : FileMeta)
    (h : q ≠ p) : (fs.writeFile p m).lookupFile q = fs.lookupFile q := by
  rw [FS.writeFile]
  by_cases hp : fs.existsFile p
  · rw [if_pos hp]
    exact fs.lookupFile_updateFile_ne p q m h
  · rw [if_neg hp]
    show lookupEntries ((p, m) :: fs.files) q = _
    have hne : p ≠ q := fun hc => h hc.symm
    simp [lookupEntries, hne, FS.lookupFile]

theorem FS.existsFile_removeFile (fs : FS) (p q : Path) :
    (fs.removeFile p).existsFile q = if q = p then false else fs.existsFile q := by
  simp only [FS.removeFile, FS.existsFile, FS.lookupFile]
  rw [lookupEntries_removeEntries]
  by_cases h : q = p <;> simp [h]

/-! ### Lemmas about `run_magick` -/

theorem run_magick_fs1_exists_mono (env : ToolEnv) (fs : FS) (f d q : Path)
    (h : fs.existsFile q = true) :
    (run_magick_fs1 env fs f d).existsFile q = true := by
  rw [run_magick_fs1]
  split
  · exact fs.existsFile_writeFile_mono _ q _ h
  · exact h

theorem run_magick_fs1_exists_frame (env : ToolEnv) (fs : FS) (f d q : Path)
    (hq : q ≠ run_magick_output_path d f) :
    (run_magick_fs1 env fs f d).existsFile q = fs.existsFile q := by
  rw [run_magick_fs1]
  split
  · exact fs.existsFile_writeFile_ne _ q _ hq
  · rfl

theorem run_magick_exists_mono (env : ToolEnv) (fs : FS) (f d q : Path)
    (h : fs.existsFile q = true) :
    ((run_magick env fs f d).2).existsFile q = true := by
  have h1 := run_magick_fs1_exists_mono env fs f d q h
  simp only [run_magick]
  split
  · exact h1
  · split
    · exact h1
    · split
      · rw [FS.existsFile_setTimes]; exact h1
      · exact h1

theorem run_magick_exists_frame (env : ToolEnv) (fs : FS) (f d q : Path)
    (hq : q ≠ run_magick_output_path d f) :
    ((run_magick env fs f d).2).existsFile q = fs.existsFile q := by
  have h1 := run_magick_fs1_exists_frame env fs f d q hq
  simp only [run_magick]
  split
  · exact h1
  · split
    · exact h1
    · split
      · rw [FS.existsFile_setTimes]; exact h1
      · exact h1

theorem run_magick_ok_output_exists (env : ToolEnv) (fs : FS) (f d : Path)
    (h : (run_magick env fs f d).1.isOk = true) :
    ((run_magick env fs f d).2).existsFile (run_magick_output_path d f) = true := by
  simp only [run_magick] at h ⊢
  by_cases hrc : (env f).returncode ≠ 0
  · rw [if_pos hrc] at h
    exact absurd h (by simp [RunResult.isOk])
  · rw [if_neg hrc] at h ⊢
    cases hm : (run_magick_fs1 env fs f d).lookupFile f with
    | none =>
        rw [hm] at h
        simp [RunResult.isOk] at h
    | some st =>
        rw [hm] at h
        dsimp only at h ⊢
        cases hex : (run_magick_fs1 env fs f d).existsFile (run_magick_output_path d f) with
        | false =>
            rw [hex] at h
            simp [RunResult.isOk] at h
        | true =>
            rw [if_pos (rfl : true = true)]
            dsimp only
            rw [FS.existsFile_setTimes]
            exact hex

/-! ### Lemmas about `runAll` -/

theorem runAll_length (env : ToolEnv) (files : List Path) (fs : FS) (d : Path) :
    (runAll env fs files d).1.length = files.length := by
  induction files generalizing fs with
  | nil => rfl
  | cons f rest ih => simp [runAll, ih]

theorem runAll_exists_mono (env : ToolEnv) (files : List Path) (fs : FS) (d q : Path)
    (h : fs.existsFile q = true) :
    ((runAll env fs files d).2).existsFile q = true := by
  induction files generalizing fs with
  | nil => exact h
  | cons f rest ih =>
      simp only [runAll]
      exact ih _ (run_magick_exists_mono env fs f d q h)

theorem runAll_exists_frame (env : ToolEnv) (files : List Path) (fs : FS) (d q : Path)
    (hq : ∀ g ∈ files, q ≠ run_magick_output_path d g) :
    ((runAll env fs files d).2).existsFile q = fs.existsFile q := by
  induction files generalizing fs with
  | nil => rfl
  | cons f rest ih =>
      simp only [runAll]
      rw [ih _ (fun g hg => hq g (List.mem_cons_of_mem f hg))]
      exact run_magick_exists_frame env fs f d q (hq f (List.mem_cons_self f rest))

theorem runAll_ok_output_exists (env : ToolEnv) (d : Path) :
    ∀ (files : List Path) (fs : FS) (f : Path) (r : RunResult),
      (f, r) ∈ files.zip (runAll env fs files d).1 → r.isOk = true →
      ((runAll env fs files d).2).existsFile (run_magick_output_path d f) = true := by
  intro files
  induction files with
  | nil => intro fs f r h _; simp [runAll] at h
  | cons g rest ih =>
      intro fs f r hmem hok
      simp only [runAll, List.zip_cons_cons, List.mem_cons] at hmem
      rcases hmem with heq | hmem
      · have hf : f = g := congrArg Prod.fst heq
        have hr : r = (run_magick env fs g d).1 := congrArg Prod.snd heq
        subst hf
        rw [hr] at hok
        simp only [runAll]
        exact runAll_exists_mono env rest _ d _
          (run_magick_ok_output_exists env fs f d hok)
      · simp only [runAll]
        exact ih (run_magick env fs g d).2 f r hmem hok

/-- If `b` occurs in `l₂` and the lists have equal length, some `a` is paired
with it in the zip. -/
theorem exists_mem_zip_right {α β : Type} (l₁ : List α) (l₂ : List β) (b : β)
    (hb : b ∈ l₂) (hl : l₁.length = l₂.length) : ∃ a, (a, b) ∈ l₁.zip l₂ := by
  induction l₂ generalizing l₁ with
  | nil => cases hb
  | cons y t ih =>
      cases l₁ with
      | nil => cases hl
      | cons x s =>
          rcases List.mem_cons.mp hb with h | h
          · exact ⟨x, by simp [h]⟩
          · obtain ⟨a, ha⟩ := ih s h (Nat.succ_injective hl)
            exact ⟨a, List.mem_cons_of_mem _ ha⟩

/-- If `a` occurs in `l₁` and the lists have equal length, some `b` is paired
with it in the zip. -/
theorem exists_mem_zip_left {α β : Type} (l₁ : List α) (l₂ : List β) (a : α)
    (ha : a ∈ l₁) (hl : l₁.length = l₂.length) : ∃ b, (a, b) ∈ l₁.zip l₂ := by
  induction l₁ generalizing l₂ with
  | nil => cases ha
  | cons x s ih =>
      cases l₂ with
      | nil => cases hl
      | cons y t =>
          rcases List.mem_cons.mp ha with h | h
          · exact ⟨y, by simp [h]⟩
          · obtain ⟨b, hb⟩ := ih t h (Nat.succ_injective hl)
            exact ⟨b, List.mem_cons_of_mem _ hb⟩

/-! ### Lemmas about `reportLoop` -/

/-- The line the driver loop prints for a future, successful or failed. -/
def printedLine : Path × RunResult → String
  | (_, .ok s) => "Processed file: " ++ s
  | (f, .error e) => "Error processing file " ++ pathStr f ++ ": " ++ e

theorem reportLoop_false_of_mem_error (prs : List (Path × RunResult))
    (pr : Path × RunResult) (hm : pr ∈ prs) (he : pr.2.isOk = false) :
    (reportLoop prs).2 = false := by
  induction prs with
  | nil => cases hm
  | cons x rest ih =>
      obtain ⟨xp, xr⟩ := x
      cases xr with
      | ok s =>
          rcases List.mem_cons.mp hm with h | h
          · rw [h] at he; simp [RunResult.isOk] at he
          · simpa [reportLoop] using ih h
      | error e => simp [reportLoop]

theorem reportLoop_true_of_all_ok (prs : List (Path × RunResult))
    (h : ∀ pr ∈ prs, pr.2.isOk = true) : (reportLoop prs).2 = true := by
  induction prs with
  | nil => rfl
  | cons x rest ih =>
      obtain ⟨xp, xr⟩ := x
      cases xr with
      | ok s =>
          simpa [reportLoop] using ih (fun pr hpr => h pr (List.mem_cons_of_mem _ hpr))
      | error e =>
          have := h (xp, .error e) (List.mem_cons_self _ rest)
          simp [RunResult.isOk] at this

/-- The log the driver loop prints when some future failed: the successes that
precede the first failure, then the first failure's error line, and nothing
else. -/
theorem reportLoop_log_of_first_error (prs : List (Path × RunResult))
    (pe : Path × RunResult)
    (hfind : prs.find? (fun pr => !pr.2.isOk) = some pe) :
    (reportLoop prs).1 =
      (prs.takeWhile (fun pr => pr.2.isOk)).map printedLine ++ [printedLine pe] := by
  induction prs with
  | nil => simp at hfind
  | cons x rest ih =>
      obtain ⟨xp, xr⟩ := x
      cases xr with
      | ok s =>
          rw [List.find?_cons_of_neg] at hfind
          · rw [List.takeWhile_cons_of_pos]
            · simp only [reportLoop, List.map_cons, List.cons_append]
              rw [ih hfind]
              rfl
            · simp [RunResult.isOk]
          · simp [RunResult.isOk]
      | error e =>
          rw [List.find?_cons_of_pos] at hfind
          · rw [List.takeWhile_cons_of_neg]
            · cases hfind
              simp [reportLoop, printedLine]
            · simp [RunResult.isOk]
          · simp [RunResult.isOk]

/-! ### Lemmas about `postPass` -/

theorem postPass_removed_subset (files : List Path) (fs : FS) (d : Path) (rm : Bool) :
    (postPass fs files d rm).removed ⊆ files := by
  induction files generalizing fs with
  | nil => simp [postPass]
  | cons f rest ih =>
      simp only [postPass]
      split
      · split
        · intro q hq
          rcases List.mem_cons.mp hq with h | h
          · exact List.mem_cons.mpr (Or.inl h)
          · exact List.mem_cons_of_mem _ (ih _ h)
        · exact fun q hq => List.mem_cons_of_mem _ (ih _ hq)
      · intro q hq
        exact List.mem_cons_of_mem _ (ih _ hq)

/-- The post-pass never creates a file: once absent, always absent. -/
theorem postPass_exists_false_mono (files : List Path) (fs : FS) (d : Path)
    (rm : Bool) (q : Path) (h : fs.existsFile q = false) :
    ((postPass fs files d rm).fs).existsFile q = false := by
  induction files generalizing fs with
  | nil => exact h
  | cons f rest ih =>
      simp only [postPass]
      split
      · split
        · refine ih _ ?_
          rw [FS.existsFile_removeFile]
          split <;> simp [h]
        · exact ih _ h
      · exact ih _ h

/-- The final filesystem of the post-pass: a path exists afterwards iff it was
not removed and existed before. -/
theorem postPass_exists (files : List Path) (fs : FS) (d : Path) (rm : Bool)
    (q : Path) :
    ((postPass fs files d rm).fs).existsFile q =
      if q ∈ (postPass fs files d rm).removed then false else fs.existsFile q := by
  induction files generalizing fs with
  | nil => simp [postPass]
  | cons f rest ih =>
      simp only [postPass]
      split
      · split
        · rw [ih, FS.existsFile_removeFile]
          by_cases hmem : q ∈ (postPass (fs.removeFile f) rest d rm).removed
          · simp [hmem]
          · by_cases hq : q = f <;> simp [hmem, hq, List.mem_cons]
        · exact ih _
      · exact ih _

/-- With the flag off the post-pass removes nothing and leaves the filesystem
untouched. -/
theorem postPass_false_noop (files : List Path) (fs : FS) (d : Path) :
    (postPass fs files d false).fs = fs ∧ (postPass fs files d false).removed = [] := by
  induction files generalizing fs with
  | nil => exact ⟨rfl, rfl⟩
  | cons f rest ih =>
      simp only [postPass]
      split
      · exact ih fs
      · exact ih fs

/-- If every expected artifact exists and no expected artifact coincides with
an input path, the post-pass with the flag on removes exactly the inputs. -/
theorem postPass_removes_all (files : List Path) (fs : FS) (d : Path)
    (hex : ∀ f ∈ files, fs.existsFile (post_pass_expected_path d f) = true)
    (hne : ∀ f ∈ files, ∀ g ∈ files, post_pass_expected_path d g ≠ f) :
    (postPass fs files d true).removed = files := by
  induction files generalizing fs with
  | nil => rfl
  | cons f rest ih =>
      simp only [postPass]
      rw [if_pos (hex f (List.mem_cons_self f rest))]
      have hrest : ∀ g ∈ rest, (fs.removeFile f).existsFile (post_pass_expected_path d g) = true := by
        intro g hg
        rw [FS.existsFile_removeFile]
        rw [if_neg (hne f (List.mem_cons_self f rest) g (List.mem_cons_of_mem f hg))]
        exact hex g (List.mem_cons_of_mem f hg)
      have := ih (fs.removeFile f) hrest
        (fun a ha b hb => hne a (List.mem_cons_of_mem f ha) b (List.mem_cons_of_mem f hb))
      simp [this]

/-- An input whose expected artifact is missing at the start of the post-pass
is never removed, and its warning line is printed. -/
theorem postPass_missing_kept (files : List Path) (fs : FS) (d : Path) (rm : Bool)
    (f : Path) (hf : f ∈ files)
    (habs : fs.existsFile (post_pass_expected_path d f) = false) :
    f ∉ (postPass fs files d rm).removed ∧
    ("Error: Expected file '" ++ pathStr (post_pass_expected_path d f) ++
      "' not found. Keeping original file.") ∈ (postPass fs files d rm).log := by
  induction files generalizing fs with
  | nil => cases hf
  | cons x rest ih =>
      simp only [postPass]
      by_cases hx : fs.existsFile (post_pass_expected_path d x) = true
      · have hxf : x ≠ f := by
          intro hc; subst hc; rw [hx] at habs; cases habs
        have hfr : f ∈ rest := by
          rcases List.mem_cons.mp hf with h | h
          · exact absurd h.symm hxf
          · exact h
        rw [if_pos hx]
        split
        · have habs' : (fs.removeFile x).existsFile (post_pass_expected_path d f) = false := by
            rw [FS.existsFile_removeFile]
            split <;> simp [habs]
          obtain ⟨h1, h2⟩ := ih _ hfr habs'
          refine ⟨?_, h2⟩
          intro hc
          rcases List.mem_cons.mp hc with h | h
          · exact hxf (by rw [h])
          · exact h1 h
        · exact ih _ hfr habs
      · rw [if_neg hx]
        by_cases hxf : x = f
        · constructor
          · by_cases hfr : f ∈ rest
            · exact (ih _ hfr habs).1
            · intro hc
              exact hfr (postPass_removed_subset rest fs d rm hc)
          · rw [hxf]
            exact List.mem_cons_self _ _
        · have hfr : f ∈ rest := by
            rcases List.mem_cons.mp hf with h | h
            · exact absurd h.symm hxf
            · exact h
          obtain ⟨h1, h2⟩ := ih _ hfr habs
          exact ⟨h1, List.mem_cons_of_mem _ h2⟩

/-! ### The selected inputs, and why outputs never collide with them -/

theorem mem_pngNames (fs : FS) (i : Path) (n : String) :
    n ∈ pngNames fs i ↔ n ∈ fs.entries i ∧ strEndsWith n ".png" = true := by
  simp [pngNames, List.mem_filter]

theorem mem_pngFiles (fs : FS) (i : Path) (f : Path) :
    f ∈ pngFiles fs i ↔ ∃ n ∈ pngNames fs i, f = i ++ [n] := by
  simp only [pngFiles, List.mem_map]
  constructor
  · rintro ⟨n, hn, rfl⟩; exact ⟨n, hn, rfl⟩
  · rintro ⟨n, hn, rfl⟩; exact ⟨n, hn, rfl⟩

/-- A name built as `stem + "." + "webp"` never ends in `".png"`. -/
theorem not_strEndsWith_png_of_dot_webp (s : String) :
    strEndsWith (s ++ "." ++ _COMPRESSED_FILE_TYPE) ".png" = false := by
  rw [strEndsWith, Bool.eq_false_iff]
  intro hc
  have hsuf : (".png").data <:+ (s ++ "." ++ _COMPRESSED_FILE_TYPE).data :=
    List.isSuffixOf_iff_suffix.mp hc
  obtain ⟨t, ht⟩ := hsuf
  have hgl := congrArg List.getLast? ht
  rw [String.data_append, String.data_append] at hgl
  rw [show (".png").data = ['.', 'p', 'n', 'g'] from rfl] at hgl
  rw [show (_COMPRESSED_FILE_TYPE).data = ['w', 'e', 'b', 'p'] from rfl] at hgl
  rw [List.getLast?_append, List.getLast?_append] at hgl
  simp at hgl

/-- A derived output path (some directory, name ending in `".webp"`) is never
equal to a path whose final component ends in `".png"`. -/
theorem output_path_ne_png_input (d i : Path) (s n : String)
    (hn : strEndsWith n ".png" = true) :
    d ++ [s ++ "." ++ _COMPRESSED_FILE_TYPE] ≠ i ++ [n] := by
  intro h
  have hl := congrArg List.getLast? h
  rw [List.getLast?_append, List.getLast?_append] at hl
  rw [List.getLast?_singleton, List.getLast?_singleton] at hl
  rw [show ∀ (x : String) (o : Option String), (some x).or o = some x from fun _ _ => rfl,
    show ∀ (x : String) (o : Option String), (some x).or o = some x from fun _ _ => rfl] at hl
  rw [Option.some_inj] at hl
  rw [← hl] at hn
  rw [not_strEndsWith_png_of_dot_webp s] at hn
  cases hn

/-- No expected output artifact path coincides with a selected input path. -/
theorem expected_ne_pngFile (fs : FS) (i o : Path) (g f : Path)
    (hf : f ∈ pngFiles fs i) : post_pass_expected_path o g ≠ f := by
  obtain ⟨n, hn, rfl⟩ := (mem_pngFiles fs i f).mp hf
  exact output_path_ne_png_input o i (stem (g.getLastD "")) n
    ((mem_pngNames fs i n).mp hn).2

/-! ### Unfolding `process_images` -/

theorem process_images_def (env : ToolEnv) (fs : FS) (i o : Path) (rm : Bool) :
    process_images env fs i o rm =
      if (reportLoop ((pngFiles fs i).zip (runAll env fs (pngFiles fs i) o).1)).2 then
        ⟨true,
         (postPass (runAll env fs (pngFiles fs i) o).2 (pngFiles fs i) o rm).fs,
         (reportLoop ((pngFiles fs i).zip (runAll env fs (pngFiles fs i) o).1)).1 ++
           (postPass (runAll env fs (pngFiles fs i) o).2 (pngFiles fs i) o rm).log,
         (postPass (runAll env fs (pngFiles fs i) o).2 (pngFiles fs i) o rm).removed⟩
      else
        ⟨false, (runAll env fs (pngFiles fs i) o).2,
         (reportLoop ((pngFiles fs i).zip (runAll env fs (pngFiles fs i) o).1)).1,
         []⟩ := rfl

theorem conversionResults_eq (env : ToolEnv) (fs : FS) (i o : Path) :
    conversionResults env fs i o = (runAll env fs (pngFiles fs i) o).1 := rfl

/-! ### Concrete fixtures for witnesses and counterexamples -/

/-- A small filesystem: two PNG inputs in `in/`, empty `out/`. -/
def sampleFS : FS :=
  { files := [(["in", "a.png"], ⟨10, 20⟩), (["in", "b.png"], ⟨30, 40⟩)],
    dirs := [["in"], ["out"]] }

/-- A filesystem whose entries also carry an uppercase-suffix image. -/
def mixedCaseFS : FS :=
  { files := [(["in", "A.PNG"], ⟨1, 2⟩), (["in", "b.png"], ⟨3, 4⟩)],
    dirs := [["in"], ["out"]] }

/-- An input present with no artifact in the output directory. -/
def missingOutputFS : FS :=
  { files := [(["in", "a.png"], ⟨10, 20⟩)],
    dirs := [["in"], ["out"]] }

/-- A tool that always succeeds and writes its output. -/
def envAllOk : ToolEnv := fun _ => ⟨0, "", true, ⟨0, 0⟩⟩

/-- A tool that fails (exit 1, nothing written) on `in/a.png` only. -/
def envFailA : ToolEnv := fun p =>
  if p = ["in", "a.png"] then ⟨1, "boom", false, ⟨0, 0⟩⟩ else ⟨0, "", true, ⟨0, 0⟩⟩

/-- A tool that fails on both `in/a.png` and `in/b.png`, with distinct
diagnostics. -/
def envFailBoth : ToolEnv := fun p =>
  if p = ["in", "a.png"] then ⟨1, "boom-a", false, ⟨0, 0⟩⟩
  else if p = ["in", "b.png"] then ⟨1, "boom-b", false, ⟨0, 0⟩⟩
  else ⟨0, "", true, ⟨0, 0⟩⟩

/-! ### Claims -/

/-- Claim C1: in every batch run in which at least one conversion fails, the run's
overall result is failure, the run deletes nothing (the deletion pass is
never reached), and in particular every file that existed before — inputs
whose own conversions succeeded included — still exists afterwards. -/
theorem C1_failure_aborts_without_deletion (env : ToolEnv) (fs : FS)
    (imgs_dir output_dir : Path) (rm : Bool)
    (h : ∃ r ∈ conversionResults env fs imgs_dir output_dir, r.isOk = false) :
    (process_images env fs imgs_dir output_dir rm).ok = false ∧
    (process_images env fs imgs_dir output_dir rm).removed = [] ∧
    ∀ p : Path, fs.existsFile p = true →
      ((process_images env fs imgs_dir output_dir rm).fs).existsFile p = true := by
  obtain ⟨r, hr, hok⟩ := h
  rw [conversionResults_eq] at hr
  obtain ⟨f, hf⟩ := exists_mem_zip_right (pngFiles fs imgs_dir) _ r hr
    (runAll_length env (pngFiles fs imgs_dir) fs output_dir).symm
  have hrep : (reportLoop ((pngFiles fs imgs_dir).zip
      (runAll env fs (pngFiles fs imgs_dir) output_dir).1)).2 = false :=
    reportLoop_false_of_mem_error _ (f, r) hf hok
  rw [process_images_def, if_neg (by rw [hrep]; simp)]
  refine ⟨rfl, rfl, ?_⟩
  intro p hp
  exact runAll_exists_mono env (pngFiles fs imgs_dir) fs output_dir p hp

/-- Witness for C1: a concrete run in which `in/a.png` fails while `in/b.png`
succeeds, with the removal flag set. -/
theorem C1_failure_aborts_without_deletion_witness :
    (∃ r ∈ conversionResults envFailA sampleFS ["in"] ["out"], r.isOk = false) ∧
    (process_images envFailA sampleFS ["in"] ["out"] true).ok = false ∧
    (process_images envFailA sampleFS ["in"] ["out"] true).removed = [] ∧
    ((process_images envFailA sampleFS ["in"] ["out"] true).fs).existsFile
      ["in", "b.png"] = true :=
  ⟨by decide,
   (C1_failure_aborts_without_deletion envFailA sampleFS ["in"] ["out"] true (by decide)).1,
   (C1_failure_aborts_without_deletion envFailA sampleFS ["in"] ["out"] true (by decide)).2.1,
   (C1_failure_aborts_without_deletion envFailA sampleFS ["in"] ["out"] true (by decide)).2.2
     ["in", "b.png"] (by decide)⟩

/-- Counterexample to C2 as stated: in a concrete batch where both
conversions fail, the second failing file's error line is never printed —
reporting stops at the first error, so not every per-file failure is
reported. -/
theorem C2_not_all_failures_reported_counterexample :
    (∀ r ∈ conversionResults envFailBoth sampleFS ["in"] ["out"], r.isOk = false) ∧
    (conversionResults envFailBoth sampleFS ["in"] ["out"]).length = 2 ∧
    ("Error processing file in/b.png: 'magick' failed on file in/b.png with error:\\nboom-b")
      ∉ (process_images envFailBoth sampleFS ["in"] ["out"] false).log := by
  decide

/-- Claim C2 (amended): the driver waits for all results, but reports only the
first failure in submission order — the log is the processed lines of the
successes preceding the first failure followed by that failure's error line,
and nothing else — before returning overall failure. -/
theorem C2_only_first_failure_reported (env : ToolEnv) (fs : FS) (i o : Path)
    (rm : Bool) (pe : Path × RunResult)
    (hfind : ((pngFiles fs i).zip (conversionResults env fs i o)).find?
        (fun pr => !pr.2.isOk) = some pe) :
    (process_images env fs i o rm).ok = false ∧
    (process_images env fs i o rm).log =
      (((pngFiles fs i).zip (conversionResults env fs i o)).takeWhile
          (fun pr => pr.2.isOk)).map printedLine ++ [printedLine pe] := by
  rw [conversionResults_eq] at hfind ⊢
  have hmem := List.mem_of_find?_eq_some hfind
  have hpred := List.find?_some hfind
  have hok : pe.2.isOk = false := by
    cases hpe : pe.2.isOk
    · rfl
    · rw [hpe] at hpred; cases hpred
  have hrep : (reportLoop ((pngFiles fs i).zip
      (runAll env fs (pngFiles fs i) o).1)).2 = false :=
    reportLoop_false_of_mem_error _ pe hmem hok
  rw [process_images_def, if_neg (by rw [hrep]; simp)]
  exact ⟨rfl, reportLoop_log_of_first_error _ pe hfind⟩

/-- Witness for C2 (amended): the concrete two-failure batch. -/
theorem C2_only_first_failure_reported_witness :
    (((pngFiles sampleFS ["in"]).zip
        (conversionResults envFailBoth sampleFS ["in"] ["out"])).find?
        (fun pr => !pr.2.isOk) =
      some (["in", "a.png"],
        .error ("'magick' failed on file in/a.png with error:\\nboom-a"))) ∧
    (process_images envFailBoth sampleFS ["in"] ["out"] false).ok = false ∧
    (process_images envFailBoth sampleFS ["in"] ["out"] false).log =
      (((pngFiles sampleFS ["in"]).zip
          (conversionResults envFailBoth sampleFS ["in"] ["out"])).takeWhile
          (fun pr => pr.2.isOk)).map printedLine ++
        [printedLine (["in", "a.png"],
          .error ("'magick' failed on file in/a.png with error:\\nboom-a"))] :=
  ⟨by decide,
   (C2_only_first_failure_reported envFailBoth sampleFS ["in"] ["out"] false
     (["in", "a.png"], .error ("'magick' failed on file in/a.png with error:\\nboom-a"))
     (by decide)).1,
   (C2_only_first_failure_reported envFailBoth sampleFS ["in"] ["out"] false
     (["in", "a.png"], .error ("'magick' failed on file in/a.png with error:\\nboom-a"))
     (by decide)).2⟩

/-- Claim C3: the claim requires exit status 1 when `--input` is not a directory,
but `main` merely prints the error and returns, so the process exits with
status 0 there (the no-mutation half does hold: the filesystem is untouched
and nothing is removed). -/
theorem C3_invalid_input_dir_exits_zero :
    sampleFS.isDir ["nope"] = false ∧
    (main envAllOk sampleFS ["nope"] ["out"] true).exitCode = 0 ∧
    (main envAllOk sampleFS ["nope"] ["out"] true).fs = sampleFS ∧
    (main envAllOk sampleFS ["nope"] ["out"] true).removed = [] ∧
    (main envAllOk sampleFS ["nope"] ["out"] true).log =
      ["Error: 'nope' is not a directory."] := by
  decide

/-- Claim C4: `run_magick` returns, on a non-zero tool exit, the failure carrying
the tool's stderr text; on a zero exit (with the artifact actually produced
and the input present and distinct from the artifact path) it copies the
input's access and modification times onto the artifact and returns success
identifying the input path. -/
theorem C4_run_magick_result (env : ToolEnv) (fs : FS) (file output_dir : Path)
    (m : FileMeta) :
    ((env file).returncode ≠ 0 →
      (run_magick env fs file output_dir).1 =
        .error ("'magick' failed on file " ++ pathStr file ++ " with error:\\n" ++
          (env file).stderr)) ∧
    ((env file).returncode = 0 → (env file).writesOutput = true →
      fs.lookupFile file = some m →
      file ≠ run_magick_output_path output_dir file →
      (run_magick env fs file output_dir).1 = .ok (pathStr file) ∧
      ((run_magick env fs file output_dir).2).lookupFile
          (run_magick_output_path output_dir file) = some ⟨m.atime, m.mtime⟩) := by
  constructor
  · intro hrc
    simp only [run_magick]
    rw [if_pos hrc]
  · intro hrc hw hm hne
    have hfs1 : run_magick_fs1 env fs file output_dir =
        fs.writeFile (run_magick_output_path output_dir file) (env file).outputMeta := by
      rw [run_magick_fs1, if_pos hw]
    have hlk : (run_magick_fs1 env fs file output_dir).lookupFile file = some m := by
      rw [hfs1, fs.lookupFile_writeFile_ne _ file _ hne, hm]
    have hex : (run_magick_fs1 env fs file output_dir).existsFile
        (run_magick_output_path output_dir file) = true := by
      rw [hfs1]; exact fs.existsFile_writeFile_self _ _
    simp only [run_magick]
    rw [if_neg (by simp [hrc])]
    rw [hlk]
    dsimp only
    rw [hex]
    rw [if_pos (rfl : true = true)]
    dsimp only
    exact ⟨rfl, (run_magick_fs1 env fs file output_dir).lookupFile_setTimes_self _
      m.atime m.mtime hex⟩

/-- Witness for C4: the failing half on the concrete failing tool, the
succeeding half on the concrete succeeding tool. -/
theorem C4_run_magick_result_witness :
    ((envFailA ["in", "a.png"]).returncode ≠ 0 ∧
      (run_magick envFailA sampleFS ["in", "a.png"] ["out"]).1 =
        .error ("'magick' failed on file in/a.png with error:\\nboom")) ∧
    ((envAllOk ["in", "a.png"]).returncode = 0 ∧
      sampleFS.lookupFile ["in", "a.png"] = some ⟨10, 20⟩ ∧
      (run_magick envAllOk sampleFS ["in", "a.png"] ["out"]).1 = .ok "in/a.png" ∧
      ((run_magick envAllOk sampleFS ["in", "a.png"] ["out"]).2).lookupFile
        ["out", "a.webp"] = some ⟨10, 20⟩) :=
  ⟨⟨by decide,
    (C4_run_magick_result envFailA sampleFS ["in", "a.png"] ["out"] ⟨10, 20⟩).1
      (by decide)⟩,
   ⟨by decide, by decide,
    ((C4_run_magick_result envAllOk sampleFS ["in", "a.png"] ["out"] ⟨10, 20⟩).2
      (by decide) (by decide) (by decide) (by decide)).1,
    ((C4_run_magick_result envAllOk sampleFS ["in", "a.png"] ["out"] ⟨10, 20⟩).2
      (by decide) (by decide) (by decide) (by decide)).2⟩⟩

/-- Claim C5: with the removal flag set and every conversion in the batch
succeeding, the run succeeds and removes exactly the input files of the
batch — afterwards none of them exists. -/
theorem C5_remove_on_success_removes_all (env : ToolEnv) (fs : FS) (i o : Path)
    (h : ∀ r ∈ conversionResults env fs i o, r.isOk = true) :
    (process_images env fs i o true).ok = true ∧
    (process_images env fs i o true).removed = pngFiles fs i ∧
    ∀ f ∈ pngFiles fs i,
      ((process_images env fs i o true).fs).existsFile f = false := by
  rw [conversionResults_eq] at h
  have hrep : (reportLoop ((pngFiles fs i).zip
      (runAll env fs (pngFiles fs i) o).1)).2 = true := by
    apply reportLoop_true_of_all_ok
    intro pr hpr
    exact h pr.2 (List.of_mem_zip hpr).2
  rw [process_images_def, if_pos hrep]
  have hex : ∀ f ∈ pngFiles fs i,
      ((runAll env fs (pngFiles fs i) o).2).existsFile
        (post_pass_expected_path o f) = true := by
    intro f hf
    obtain ⟨r, hr⟩ := exists_mem_zip_left (pngFiles fs i) _ f hf
      (runAll_length env (pngFiles fs i) fs o).symm
    exact runAll_ok_output_exists env o (pngFiles fs i) fs f r hr
      (h r (List.of_mem_zip hr).2)
  have hne : ∀ f ∈ pngFiles fs i, ∀ g ∈ pngFiles fs i,
      post_pass_expected_path o g ≠ f :=
    fun f hf g _ => expected_ne_pngFile fs i o g f hf
  have hrem := postPass_removes_all (pngFiles fs i)
    ((runAll env fs (pngFiles fs i) o).2) o hex hne
  refine ⟨rfl, hrem, ?_⟩
  intro f hf
  show ((postPass ((runAll env fs (pngFiles fs i) o).2) (pngFiles fs i) o
      true).fs).existsFile f = false
  rw [postPass_exists, hrem, if_pos hf]

/-- Witness for C5: the all-success tool on the two-input filesystem removes
both inputs. -/
theorem C5_remove_on_success_removes_all_witness :
    (∀ r ∈ conversionResults envAllOk sampleFS ["in"] ["out"], r.isOk = true) ∧
    (process_images envAllOk sampleFS ["in"] ["out"] true).ok = true ∧
    (process_images envAllOk sampleFS ["in"] ["out"] true).removed =
      pngFiles sampleFS ["in"] ∧
    ((process_images envAllOk sampleFS ["in"] ["out"] true).fs).existsFile
      ["in", "a.png"] = false :=
  ⟨by decide,
   (C5_remove_on_success_removes_all envAllOk sampleFS ["in"] ["out"] (by decide)).1,
   (C5_remove_on_success_removes_all envAllOk sampleFS ["in"] ["out"] (by decide)).2.1,
   (C5_remove_on_success_removes_all envAllOk sampleFS ["in"] ["out"] (by decide)).2.2
     ["in", "a.png"] (by decide)⟩

/-- Claim C6: with the removal flag off, the run's removal trace is empty and every
selected input file exists afterwards exactly as it did before, whether the
conversions succeeded or failed. -/
theorem C6_no_flag_never_removes (env : ToolEnv) (fs : FS) (i o : Path) :
    (process_images env fs i o false).removed = [] ∧
    ∀ f ∈ pngFiles fs i,
      ((process_images env fs i o false).fs).existsFile f = fs.existsFile f := by
  rw [process_images_def]
  have hframe : ∀ f ∈ pngFiles fs i,
      ((runAll env fs (pngFiles fs i) o).2).existsFile f = fs.existsFile f := by
    intro f hf
    apply runAll_exists_frame
    intro g _
    exact fun hc => expected_ne_pngFile fs i o g f hf hc.symm
  by_cases hrep : (reportLoop ((pngFiles fs i).zip
      (runAll env fs (pngFiles fs i) o).1)).2 = true
  · rw [if_pos hrep]
    obtain ⟨hfs, hrm⟩ := postPass_false_noop (pngFiles fs i)
      ((runAll env fs (pngFiles fs i) o).2) o
    refine ⟨hrm, ?_⟩
    intro f hf
    show ((postPass ((runAll env fs (pngFiles fs i) o).2) (pngFiles fs i) o
        false).fs).existsFile f = fs.existsFile f
    rw [hfs]
    exact hframe f hf
  · rw [if_neg hrep]
    exact ⟨rfl, fun f hf => hframe f hf⟩

/-- Witness for C6: a concrete failing run with the flag off removes nothing
and keeps `in/b.png` exactly as it was. -/
theorem C6_no_flag_never_removes_witness :
    (["in", "b.png"] ∈ pngFiles sampleFS ["in"]) ∧
    (process_images envFailA sampleFS ["in"] ["out"] false).removed = [] ∧
    ((process_images envFailA sampleFS ["in"] ["out"] false).fs).existsFile
      ["in", "b.png"] = sampleFS.existsFile ["in", "b.png"] :=
  ⟨by decide,
   (C6_no_flag_never_removes envFailA sampleFS ["in"] ["out"]).1,
   (C6_no_flag_never_removes envFailA sampleFS ["in"] ["out"]).2
     ["in", "b.png"] (by decide)⟩

/-- Claim C7: when the post-pass finds the expected artifact of some input absent,
that input is kept (not removed even with the flag set, its presence in the
filesystem unchanged) and its warning line is printed; and reaching the
post-pass at all — every conversion having reported success — already fixes
the run's overall result as success, so the missing artifact cannot fail the
run. -/
theorem C7_missing_artifact_kept_warned (fs : FS) (files : List Path) (o : Path)
    (rm : Bool) (f : Path) (env : ToolEnv) (fs0 : FS) (i : Path)
    (hf : f ∈ files)
    (habs : fs.existsFile (post_pass_expected_path o f) = false)
    (hall : ∀ r ∈ conversionResults env fs0 i o, r.isOk = true) :
    f ∉ (postPass fs files o rm).removed ∧
    ((postPass fs files o rm).fs).existsFile f = fs.existsFile f ∧
    ("Error: Expected file '" ++ pathStr (post_pass_expected_path o f) ++
      "' not found. Keeping original file.") ∈ (postPass fs files o rm).log ∧
    (process_images env fs0 i o rm).ok = true := by
  obtain ⟨h1, h2⟩ := postPass_missing_kept files fs o rm f hf habs
  rw [conversionResults_eq] at hall
  have hrep : (reportLoop ((pngFiles fs0 i).zip
      (runAll env fs0 (pngFiles fs0 i) o).1)).2 = true :=
    reportLoop_true_of_all_ok _ (fun pr hpr => hall pr.2 (List.of_mem_zip hpr).2)
  refine ⟨h1, ?_, h2, ?_⟩
  · rw [postPass_exists, if_neg h1]
  · rw [process_images_def, if_pos hrep]

/-- Witness for C7: `in/a.png` with no artifact in `out/`, flag set: kept,
warned; and the all-success concrete run returns overall success. -/
theorem C7_missing_artifact_kept_warned_witness :
    ((["in", "a.png"] : Path) ∈ [(["in", "a.png"] : Path)]) ∧
    missingOutputFS.existsFile
      (post_pass_expected_path ["out"] ["in", "a.png"]) = false ∧
    (["in", "a.png"] : Path) ∉
      (postPass missingOutputFS [["in", "a.png"]] ["out"] true).removed ∧
    ("Error: Expected file '" ++
        pathStr (post_pass_expected_path ["out"] ["in", "a.png"]) ++
        "' not found. Keeping original file.") ∈
      (postPass missingOutputFS [["in", "a.png"]] ["out"] true).log ∧
    (process_images envAllOk sampleFS ["in"] ["out"] true).ok = true :=
  ⟨by decide, by decide,
   (C7_missing_artifact_kept_warned missingOutputFS [["in", "a.png"]] ["out"]
     true ["in", "a.png"] envAllOk sampleFS ["in"] (by decide) (by decide)
     (by decide)).1,
   (C7_missing_artifact_kept_warned missingOutputFS [["in", "a.png"]] ["out"]
     true ["in", "a.png"] envAllOk sampleFS ["in"] (by decide) (by decide)
     (by decide)).2.2.1,
   (C7_missing_artifact_kept_warned missingOutputFS [["in", "a.png"]] ["out"]
     true ["in", "a.png"] envAllOk sampleFS ["in"] (by decide) (by decide)
     (by decide)).2.2.2⟩

/-- Claim C8: the artifact path is one deterministic function of the output
directory and the input's file name — the input's stem with the compressed
extension inside the output directory — and the path `run_magick` writes and
the path the post-pass checks are that same derived path. -/
theorem C8_output_path_deterministic :
    ∀ (output_dir file : Path),
      run_magick_output_path output_dir file =
        post_pass_expected_path output_dir file ∧
      run_magick_output_path output_dir file =
        output_dir ++ [stem (file.getLastD "") ++ "." ++ _COMPRESSED_FILE_TYPE] ∧
      ∀ g : Path, file.getLastD "" = g.getLastD "" →
        run_magick_output_path output_dir file =
          run_magick_output_path output_dir g := by
  intro d f
  refine ⟨rfl, rfl, fun g hg => ?_⟩
  rw [run_magick_output_path, run_magick_output_path, hg]

/-- Witness for C8: two paths sharing the file name `a.png` map to the same
artifact path. -/
theorem C8_output_path_deterministic_witness :
    ((["in", "a.png"] : Path).getLastD "" = (["other", "a.png"] : Path).getLastD "") ∧
    run_magick_output_path ["out"] ["in", "a.png"] =
      post_pass_expected_path ["out"] ["in", "a.png"] ∧
    run_magick_output_path ["out"] ["in", "a.png"] =
      run_magick_output_path ["out"] ["other", "a.png"] :=
  ⟨by decide,
   (C8_output_path_deterministic ["out"] ["in", "a.png"]).1,
   (C8_output_path_deterministic ["out"] ["in", "a.png"]).2.2
     ["other", "a.png"] (by decide)⟩

/-- Claim C9: the input listing selects exactly the entries of the input directory
whose names end in the source extension, and every selected input path is a
direct child of the input directory — the enumeration never descends into
subdirectories. -/
theorem C9_listing_is_nonrecursive_filter (fs : FS) (dir : Path) :
    (∀ n : String, n ∈ pngNames fs dir ↔
        n ∈ fs.entries dir ∧ strEndsWith n ".png" = true) ∧
    ∀ p ∈ pngFiles fs dir, ∃ n ∈ fs.entries dir, p = dir ++ [n] := by
  refine ⟨fun n => mem_pngNames fs dir n, ?_⟩
  intro p hp
  obtain ⟨n, hn, rfl⟩ := (mem_pngFiles fs dir p).mp hp
  exact ⟨n, ((mem_pngNames fs dir n).mp hn).1, rfl⟩

/-- A filesystem with a PNG nested one level below the input directory. -/
def nestedFS : FS :=
  { files := [(["in", "a.png"], ⟨1, 2⟩), (["in", "sub", "c.png"], ⟨3, 4⟩)],
    dirs := [["in"], ["out"], ["in", "sub"]] }

/-- Witness for C9: on the nested filesystem, `a.png` is selected, the
nested `in/sub/c.png` is not, and the selected path is a direct child. -/
theorem C9_listing_is_nonrecursive_filter_witness :
    ("a.png" ∈ pngNames nestedFS ["in"] ↔
      "a.png" ∈ nestedFS.entries ["in"] ∧ strEndsWith "a.png" ".png" = true) ∧
    (["in", "a.png"] : Path) ∈ pngFiles nestedFS ["in"] ∧
    (["in", "sub", "c.png"] : Path) ∉ pngFiles nestedFS ["in"] ∧
    (∃ n ∈ nestedFS.entries ["in"], (["in", "a.png"] : Path) = ["in"] ++ [n]) :=
  ⟨(C9_listing_is_nonrecursive_filter nestedFS ["in"]).1 "a.png",
   by decide, by decide,
   (C9_listing_is_nonrecursive_filter nestedFS ["in"]).2
     ["in", "a.png"] (by decide)⟩

/-- Claim C10: eligibility is a case-sensitive suffix test — an entry is selected
iff its name ends in the exact lowercase `".png"` — so `"A.PNG"`-style names
are silently excluded. -/
theorem C10_case_sensitive_suffix (fs : FS) (dir : Path) (n : String) :
    (n ∈ fs.entries dir → (n ∈ pngNames fs dir ↔ strEndsWith n ".png" = true)) ∧
    strEndsWith "shot.PNG" ".png" = false ∧
    "A.PNG" ∈ mixedCaseFS.entries ["in"] ∧
    "A.PNG" ∉ pngNames mixedCaseFS ["in"] ∧
    "b.png" ∈ pngNames mixedCaseFS ["in"] := by
  refine ⟨?_, by decide, by decide, by decide, by decide⟩
  intro hent
  rw [mem_pngNames]
  exact ⟨fun h => h.2, fun h => ⟨hent, h⟩⟩

/-- Witness for C10: the uppercase entry is in the directory, and its
selection is equivalent to the (false) lowercase suffix test. -/
theorem C10_case_sensitive_suffix_witness :
    ("A.PNG" ∈ mixedCaseFS.entries ["in"]) ∧
    ("A.PNG" ∈ pngNames mixedCaseFS ["in"] ↔
      strEndsWith "A.PNG" ".png" = true) :=
  ⟨by decide,
   (C10_case_sensitive_suffix mixedCaseFS ["in"] "A.PNG").1 (by decide)⟩

end PngToWebp
